import Mathlib

/-!
Verification of the note-body decoder of `src/server/notes_reader.py`
(AppleNotesSync).

Shallow embedding conventions:
* Python `bytes` values are `List Nat` (each entry a byte, `< 256` in real
  data; operations that mask with `&&& 0x7F` etc. are translated with the
  same masks so they are total on all of `Nat`).
* Python `str` values are `List Char` (Lean `Char` is a Unicode scalar
  value; every string this program builds comes from UTF-8 decoding, which
  only produces scalar values).
* The external decompressors `gzip.decompress` / `zlib.decompress` are
  uninterpreted parameters of type `Bytes → Except ε Bytes`
  (`Except.error` modelling a raised exception).
* A Python `dict[int, list[bytes]]` built only via `setdefault(k, []).append(v)`
  is modelled as the total function `Nat → List Bytes`; a key is "in" the
  dict iff its list is nonempty (`setdefault` appends immediately, so the
  dict never holds an empty list).
-/

namespace AppleNotes

abbrev Bytes := List Nat

/-- Loop body of `_read_varint` (notes_reader.py lines 51-62): `result` and
`shift` are the accumulator variables of the Python `while` loop. Each byte
contributes its low 7 bits (`b & 0x7F`) shifted left by the running `shift`;
a clear top bit (`b & 0x80 == 0`) terminates; running off the end of the
buffer returns the partial accumulator silently.

The recursion is made structural (hence kernel-computable) by the explicit
iteration bound `fuel`: one byte is consumed per iteration, so any
`fuel ≥ data.length - pos` produces the loop's result
(`readVarintAux_fuel_irrelevant`), and `_read_varint` instantiates
`fuel := data.length - pos`, under which the `fuel = 0` clause coincides
with the loop's exit condition `pos ≥ len(data)`. -/
def readVarintAux (data : Bytes) : Nat → Nat → Nat → Nat → Nat × Nat
  | fuel + 1, pos, result, shift =>
    if h : pos < data.length then
      let b := data.get ⟨pos, h⟩
      let result' := result ||| ((b &&& 0x7F) <<< shift)
      if b &&& 0x80 = 0 then (result', pos + 1)
      else readVarintAux data fuel (pos + 1) result' (shift + 7)
    else (result, pos)
  | 0, pos, result, _ => (result, pos)

/-- `_read_varint(data, pos)` -> `(value, new_pos)` (notes_reader.py 51-62). -/
def _read_varint (data : Bytes) (pos : Nat) : Nat × Nat :=
  readVarintAux data (data.length - pos) pos 0 0

/-- The schema-less field map: field number to the ordered list of
length-delimited values observed for it. -/
abbrev Fields := Nat → List Bytes

def emptyFields : Fields := fun _ => []

/-- `fields.setdefault(field_number, []).append(value)` -/
def appendField (fields : Fields) (n : Nat) (v : Bytes) : Fields :=
  fun m => if m = n then fields m ++ [v] else fields m

/-- Loop of `_parse_protobuf` (notes_reader.py 65-92), with the Python local
`fields` made an explicit accumulator. Wire type is `tag & 0x07`, the field
number `tag >> 3`. Wire type 0 skips a varint, 5 skips 4 bytes, 1 skips
8 bytes; wire type 2 reads a length varint and appends `data[pos:pos+length]`
to the field's list unless the length overruns the buffer, in which case the
loop breaks with the fields recovered so far; any other wire type breaks
likewise. (The Python `try/except` around `_read_varint` is dead code:
`_read_varint` cannot raise.)

As with `readVarintAux`, `fuel` bounds the iteration count to make the
recursion structural: the cursor advances by at least one byte per
iteration (`readVarint_lt`), so any `fuel ≥ data.length - pos` produces
the loop's result (`parseProtobufAux_fuel_irrelevant`), and with the bound
`_parse_protobuf` uses the `fuel = 0` clause coincides with the loop exit
`pos ≥ len(data)`. -/
def parseProtobufAux (data : Bytes) : Nat → Nat → Fields → Fields
  | fuel + 1, pos, fields =>
    if pos < data.length then
      let tag := (_read_varint data pos).1
      let pos1 := (_read_varint data pos).2
      if tag &&& 0x07 = 0 then
        parseProtobufAux data fuel (_read_varint data pos1).2 fields
      else if tag &&& 0x07 = 2 then
        let length := (_read_varint data pos1).1
        let pos2 := (_read_varint data pos1).2
        if data.length < pos2 + length then fields
        else
          parseProtobufAux data fuel (pos2 + length)
            (appendField fields (tag >>> 3) ((data.drop pos2).take length))
      else if tag &&& 0x07 = 5 then
        parseProtobufAux data fuel (pos1 + 4) fields
      else if tag &&& 0x07 = 1 then
        parseProtobufAux data fuel (pos1 + 8) fields
      else fields
    else fields
  | 0, _, fields => fields

/-- `_parse_protobuf` (notes_reader.py 65-92). -/
def _parse_protobuf (data : Bytes) : Fields :=
  parseProtobufAux data data.length 0 emptyFields

/-! ### UTF-8 decoding (CPython `bytes.decode("utf-8")` semantics) -/

/-- Is `b` a UTF-8 continuation byte (`0x80..0xBF`)? -/
def utf8Cont (b : Nat) : Bool := 0x80 ≤ b && b ≤ 0xBF

/-- One step of CPython's UTF-8 decoder on first byte `b` with remaining
bytes `rest`: `(some cp, k)` decodes code point `cp` consuming `k` further
bytes of `rest`; `(none, k)` reports a malformed sequence whose maximal
valid subpart consumes `k` further bytes (the convention CPython's
`errors="replace"` uses to place one U+FFFD per maximal subpart). The
accepted ranges for the first continuation byte after 0xE0/0xED/0xF0/0xF4
exclude overlong encodings and surrogates, as CPython does. -/
def utf8Step (b : Nat) (rest : Bytes) : Option Nat × Nat :=
  if b ≤ 0x7F then (some b, 0)
  else if 0xC2 ≤ b && b ≤ 0xDF then
    match rest with
    | b1 :: _ =>
      if utf8Cont b1 then (some ((b - 0xC0) * 0x40 + (b1 - 0x80)), 1)
      else (none, 0)
    | [] => (none, 0)
  else if 0xE0 ≤ b && b ≤ 0xEF then
    match rest with
    | b1 :: rest1 =>
      if (if b = 0xE0 then 0xA0 ≤ b1 && b1 ≤ 0xBF
          else if b = 0xED then 0x80 ≤ b1 && b1 ≤ 0x9F
          else utf8Cont b1) then
        match rest1 with
        | b2 :: _ =>
          if utf8Cont b2 then
            (some ((b - 0xE0) * 0x1000 + (b1 - 0x80) * 0x40 + (b2 - 0x80)), 2)
          else (none, 1)
        | [] => (none, 1)
      else (none, 0)
    | [] => (none, 0)
  else if 0xF0 ≤ b && b ≤ 0xF4 then
    match rest with
    | b1 :: rest1 =>
      if (if b = 0xF0 then 0x90 ≤ b1 && b1 ≤ 0xBF
          else if b = 0xF4 then 0x80 ≤ b1 && b1 ≤ 0x8F
          else utf8Cont b1) then
        match rest1 with
        | b2 :: rest2 =>
          if utf8Cont b2 then
            match rest2 with
            | b3 :: _ =>
              if utf8Cont b3 then
                (some ((b - 0xF0) * 0x40000 + (b1 - 0x80) * 0x1000 +
                       (b2 - 0x80) * 0x40 + (b3 - 0x80)), 3)
              else (none, 2)
            | [] => (none, 2)
          else (none, 1)
        | [] => (none, 1)
      else (none, 0)
    | [] => (none, 0)
  else (none, 0)

/-- U+FFFD REPLACEMENT CHARACTER. -/
def replacementChar : Char := Char.ofNat 0xFFFD

/-- U+2028 LINE SEPARATOR (`" "` in the source). -/
def lineSeparator : Char := Char.ofNat 0x2028

/-- U+FFFC OBJECT REPLACEMENT CHARACTER (`"￼"` in the source). -/
def objectReplacement : Char := Char.ofNat 0xFFFC

/-- `decompressed.decode("utf-8", errors="replace")`, with the structural
iteration bound `fuel` (each step consumes at least the lead byte, so
`fuel = l.length` in `utf8DecodeReplace` is exact;
`utf8DecodeReplaceAux_fuel_irrelevant`): one U+FFFD per maximal invalid
subpart, never failing. -/
def utf8DecodeReplaceAux : Nat → Bytes → List Char
  | _, [] => []
  | 0, _ :: _ => []
  | fuel + 1, b :: rest =>
    match utf8Step b rest with
    | (some cp, k) => Char.ofNat cp :: utf8DecodeReplaceAux fuel (rest.drop k)
    | (none, k) => replacementChar :: utf8DecodeReplaceAux fuel (rest.drop k)

def utf8DecodeReplace (l : Bytes) : List Char :=
  utf8DecodeReplaceAux l.length l

/-- `text_bytes.decode("utf-8")` (strict): `Except.error` models the
`UnicodeDecodeError` raised on the first malformed sequence. Same fuel
convention as `utf8DecodeReplaceAux`. -/
def utf8DecodeStrictAux : Nat → Bytes → Except Unit (List Char)
  | _, [] => .ok []
  | 0, _ :: _ => .ok []
  | fuel + 1, b :: rest =>
    match utf8Step b rest with
    | (some cp, k) =>
      match utf8DecodeStrictAux fuel (rest.drop k) with
      | .ok cs => .ok (Char.ofNat cp :: cs)
      | .error e => .error e
    | (none, _) => .error ()

def utf8DecodeStrict (l : Bytes) : Except Unit (List Char) :=
  utf8DecodeStrictAux l.length l

/-! ### Python string primitives used by the decoder -/

/-- Python `str.isspace` / regex `\s` for `str` patterns (both are
`Py_UNICODE_ISSPACE`): the complete set of code points Python treats as
whitespace. -/
def pyIsSpace (c : Char) : Bool :=
  (0x09 ≤ c.toNat && c.toNat ≤ 0x0D) || c.toNat = 0x20 ||
  (0x1C ≤ c.toNat && c.toNat ≤ 0x1F) || c.toNat = 0x85 || c.toNat = 0xA0 ||
  c.toNat = 0x1680 || (0x2000 ≤ c.toNat && c.toNat ≤ 0x200A) ||
  c.toNat = 0x2028 || c.toNat = 0x2029 || c.toNat = 0x202F ||
  c.toNat = 0x205F || c.toNat = 0x3000

/-- Drop the longest suffix all of whose elements satisfy `p`. -/
def dropTrailing (p : α → Bool) (l : List α) : List α :=
  (l.reverse.dropWhile p).reverse

/-- Python `str.strip()` with no argument: remove leading and trailing
whitespace. -/
def pyStrip (s : List Char) : List Char :=
  dropTrailing pyIsSpace (s.dropWhile pyIsSpace)

/-- Python `text.replace(old, new)` specialised to a one-character `old`
and one-character `new`: replace every occurrence, position-wise. -/
def replaceChar (s : List Char) (old new : Char) : List Char :=
  s.map (fun c => if c = old then new else c)

/-- Python `text.replace(old, "")` specialised to a one-character `old`:
remove every occurrence. -/
def removeChar (s : List Char) (old : Char) : List Char :=
  s.filter (fun c => c ≠ old)

/-- `sep.join(parts)`. -/
def joinWith (sep : List Char) (parts : List (List Char)) : List Char :=
  List.intercalate sep parts

/-! ### Structured text extractor -/

/-- The `text_parts` accumulation loop of `_try_structured_parse`
(notes_reader.py 135-144): for each field-3 sub-message `para_data` parse
it (`para`), and when field 2 is present append, for each of its byte
strings in order, the strict UTF-8 decode — skipping, via the
`try/except UnicodeDecodeError`, any run that fails to decode. -/
def structuredTextParts (paras : List Bytes) : List (List Char) :=
  paras.foldl (fun text_parts para_data =>
    if (_parse_protobuf para_data) 2 = [] then text_parts
    else ((_parse_protobuf para_data) 2).foldl (fun acc text_bytes =>
      match utf8DecodeStrict text_bytes with
      | .ok s => acc ++ [s]
      | .error _ => acc) text_parts) []

/-- `_try_structured_parse` (notes_reader.py 123-146): walk the fixed path
root field 2 (first value) → sub-message field 3 → field 2, strict-decode
each byte run, silently skipping runs that fail to decode, and join the
decoded runs with newlines; empty when the path is absent. (The Python
locals `root`, `note_store` and `para` are written out as the parses they
name.) -/
def _try_structured_parse (decompressed : Bytes) : List Char :=
  match (_parse_protobuf decompressed) 2 with
  | [] => []
  | v0 :: _ =>
    if (_parse_protobuf v0) 3 = [] then []
    else
      if structuredTextParts ((_parse_protobuf v0) 3) = [] then []
      else joinWith ['\n'] (structuredTextParts ((_parse_protobuf v0) 3))

/-! ### Fallback text scanner -/

/-- Latin-1 fragment of Python's `\w` (underscore or Unicode alphanumeric),
written out exactly for code points below 0x100: 0-9, A-Z, `_`, a-z, and
the Latin-1 letters and numeric signs ª ² ³ µ ¹ º ¼ ½ ¾, À-Ö, Ø-ö, ø-ÿ
(the multiplication and division signs are not word characters). -/
def latin1Word (n : Nat) : Bool :=
  (0x30 ≤ n && n ≤ 0x39) || (0x41 ≤ n && n ≤ 0x5A) || n = 0x5F ||
  (0x61 ≤ n && n ≤ 0x7A) || n = 0xAA || n = 0xB2 || n = 0xB3 || n = 0xB5 ||
  n = 0xB9 || n = 0xBA || (0xBC ≤ n && n ≤ 0xBE) ||
  (0xC0 ≤ n && n ≤ 0xD6) || (0xD8 ≤ n && n ≤ 0xF6) || (0xF8 ≤ n && n ≤ 0xFF)

/-- Python regex `\w` for `str` patterns: underscore or Unicode
alphanumeric. The parameter `wTab` is the Unicode alphanumeric table for
code points at and above 0x100 (external data, exactly like the
decompressors); below 0x100 the table is written out exactly. Within
`fallbackCharClass` the value of `wTab` can only matter above 0xFFFF,
because the class contains all of U+00C0..U+FFFF outright. -/
def pyIsWord (wTab : Nat → Bool) (c : Char) : Bool :=
  if c.toNat < 0x100 then latin1Word c.toNat else wTab c.toNat

/-- The punctuation alternatives of the fallback pattern:
`. , ; : ! ? ' " ( ) -`. -/
def fallbackPunct (c : Char) : Bool :=
  c = '.' || c = ',' || c = ';' || c = ':' || c = '!' || c = '?' ||
  c = '\'' || c = '\"' || c = '(' || c = ')' || c = '-'

/-- The character class of the fallback pattern
`[\w\s.,;:!?'"()\-À-￿]` (notes_reader.py line 160). -/
def fallbackCharClass (wTab : Nat → Bool) (c : Char) : Bool :=
  pyIsWord wTab c || pyIsSpace c || fallbackPunct c ||
  (0xC0 ≤ c.toNat && c.toNat ≤ 0xFFFF)

/-- `re.findall(r'[p]{4,}', s)` for a character class `p`: the scanner
tries a match at each position, left to right; the greedy `{4,}` takes the
maximal run of class characters from that position and succeeds exactly
when the run has length at least 4, consuming it; on failure the scan
advances a single position. `fuel` is the structural iteration bound
(each step consumes at least one character, so `fuel = l.length` in
`findallRuns` is exact; `findallRunsAux_fuel_irrelevant`). -/
def findallRunsAux (p : Char → Bool) : Nat → List Char → List (List Char)
  | _, [] => []
  | 0, _ :: _ => []
  | fuel + 1, c :: cs =>
    if p c then
      if 4 ≤ ((c :: cs).takeWhile p).length then
        (c :: cs).takeWhile p :: findallRunsAux p fuel ((c :: cs).dropWhile p)
      else findallRunsAux p fuel cs
    else findallRunsAux p fuel cs

def findallRuns (p : Char → Bool) (l : List Char) : List (List Char) :=
  findallRunsAux p l.length l

/-- `_fallback_extract_text` (notes_reader.py 149-163): decode the whole
buffer as UTF-8 with replacement, find all class runs of length at least 4,
join them with single spaces and strip the result; empty when no run
matches. -/
def _fallback_extract_text (wTab : Nat → Bool) (decompressed : Bytes) : List Char :=
  let raw_text := utf8DecodeReplace decompressed
  let parts := findallRuns (fallbackCharClass wTab) raw_text
  if parts = [] then [] else pyStrip (joinWith [' '] parts)

/-! ### Sanitizer and decoder pipeline -/

/-- The clean-up lines 116-118 of `_extract_text_from_protobuf`: replace
U+2028 (Line Separator) by a newline, remove U+FFFC (Object Replacement
Character), strip leading/trailing whitespace. -/
def pySanitize (text : List Char) : List Char :=
  pyStrip (removeChar (replaceChar text lineSeparator '\n') objectReplacement)

/-- Lines 111-120 of `_extract_text_from_protobuf`: the decoder after
decompression succeeded — structured parse, fallback when that is empty,
then the sanitizer. -/
def extractFromDecompressed (wTab : Nat → Bool) (decompressed : Bytes) : List Char :=
  let text := _try_structured_parse decompressed
  let text := if text = [] then _fallback_extract_text wTab decompressed else text
  pySanitize text

/-- `_extract_text_from_protobuf` (notes_reader.py 95-120). The external
decompressors are parameters; `Except.error` models a raised exception,
absorbed by the corresponding `try/except`. -/
def _extract_text_from_protobuf {ε : Type}
    (gzipDecompress zlibDecompress : Bytes → Except ε Bytes)
    (wTab : Nat → Bool) (data : Bytes) : List Char :=
  match gzipDecompress data with
  | .ok decompressed => extractFromDecompressed wTab decompressed
  | .error _ =>
    match zlibDecompress data with
    | .ok decompressed => extractFromDecompressed wTab decompressed
    | .error _ => []

/-- Exception-level semantics of `_extract_text_from_protobuf`: the result
type is `Except ε (List Char)` so an exception escaping to the caller would
be visible as `Except.error`; each fallible call (the two decompressors
here, and the strict UTF-8 decodes handled inside `_try_structured_parse`)
is wrapped exactly where the source has a `try/except`. -/
def extractTextE {ε : Type} (gzipDecompress zlibDecompress : Bytes → Except ε Bytes)
    (wTab : Nat → Bool) (data : Bytes) : Except ε (List Char) :=
  match gzipDecompress data with
  | .ok d => .ok (extractFromDecompressed wTab d)
  | .error _ =>
    match zlibDecompress data with
    | .ok d => .ok (extractFromDecompressed wTab d)
    | .error _ => .ok []

/-! ### Database rows and the query layer

The read-only SQLite store is modelled relationally: a list of
`ZICCLOUDSYNCINGOBJECT` rows (notes and folders live in the same table)
and a list of `ZICNOTEDATA` rows, restricted to the columns the queries
read. `τ` is the type of raw Core-Data timestamps (REAL in SQLite), kept
abstract together with the converter `_apple_timestamp_to_iso` (datetime
arithmetic, external to the decoder); no claim depends on their values.
`GROUP BY f.Z_PK` is modelled as one group per folder row, which matches
SQLite when `Z_PK` is (as a primary key) unique. -/

structure CloudObject (τ : Type) where
  z_pk : Nat
  ztitle1 : Option (List Char)
  ztitle2 : Option (List Char)
  zsnippet : Option (List Char)
  zfolder : Option Nat
  zmarkedfordeletion : Option Int
  zispinned : Option Int
  zhaschecklist : Option Int
  zcreationdate3 : Option τ
  zmodificationdate1 : Option τ
deriving DecidableEq

structure NoteData where
  znote : Option Nat
  zdata : Option Bytes
deriving DecidableEq

structure Note where
  id : Nat
  title : List Char
  snippet : List Char
  body : List Char
  folder : List Char
  created : List Char
  modified : List Char
  is_pinned : Bool
  has_checklist : Bool
deriving DecidableEq

structure Folder where
  id : Nat
  name : List Char
  note_count : Nat
deriving DecidableEq

/-- SQL `(x.ZMARKEDFORDELETION IS NULL OR x.ZMARKEDFORDELETION = 0)`. -/
def notDeleted {τ : Type} (r : CloudObject τ) : Bool :=
  r.zmarkedfordeletion = none || r.zmarkedfordeletion = some 0

/-- Python `x or dflt` for an optional string `x` (`None` and the empty
string are both falsy). -/
def pyOrStr (x : Option (List Char)) (dflt : List Char) : List Char :=
  match x with
  | some s => if s = [] then dflt else s
  | none => dflt

/-- Python `bool(x)` for a nullable integer column (`None` and `0` are
falsy). -/
def pyBoolInt (x : Option Int) : Bool :=
  match x with
  | some i => i ≠ 0
  | none => false

/-- SQLite `ORDER BY` comparison on a nullable column: NULL sorts before
every value. -/
def sqliteLe {τ : Type} (le_ts : τ → τ → Bool) : Option τ → Option τ → Bool
  | none, _ => true
  | some _, none => false
  | some a, some b => le_ts a b

/-- SQLite NULL-first comparison on a nullable integer column. -/
def optIntLe : Option Int → Option Int → Bool
  | none, _ => true
  | some _, none => false
  | some a, some b => a ≤ b

/-- Insert `a` into `l` before the first element it sorts no later than. -/
def insertLe {α : Type} (le : α → α → Bool) (a : α) : List α → List α
  | [] => [a]
  | b :: bs => if le a b then a :: b :: bs else b :: insertLe le a bs

/-- `ORDER BY` is modelled by an insertion sort: SQL fixes only the
ordering relation, not the relative order of ties, so any sorting
algorithm is a faithful model; insertion sort keeps the model
kernel-computable. -/
def sortLe {α : Type} (le : α → α → Bool) : List α → List α
  | [] => []
  | a :: as => insertLe le a (sortLe le as)

/-- SQLite BINARY collation on text: code-point lexicographic order. -/
def lexLe : List Char → List Char → Bool
  | [], _ => true
  | _ :: _, [] => false
  | a :: as, b :: bs =>
    if a.toNat < b.toNat then true
    else if b.toNat < a.toNat then false
    else lexLe as bs

/-- `ORDER BY n.ZISPINNED DESC, n.ZMODIFICATIONDATE1 DESC` as a boolean
"sorts no later than" relation. -/
def notesLe {τ : Type} (le_ts : τ → τ → Bool) (a b : CloudObject τ) : Bool :=
  if a.zispinned = b.zispinned then
    sqliteLe le_ts b.zmodificationdate1 a.zmodificationdate1
  else optIntLe b.zispinned a.zispinned

/-- SQL `LEFT JOIN ZICCLOUDSYNCINGOBJECT f ON n.ZFOLDER = f.Z_PK`: pair `n`
with each matching folder row, or with `none` when no row matches. -/
def leftJoinFolder {τ : Type} (db : List (CloudObject τ)) (n : CloudObject τ) :
    List (CloudObject τ × Option (CloudObject τ)) :=
  match db.filter (fun f => n.zfolder = some f.z_pk) with
  | [] => [(n, none)]
  | fs => fs.map (fun f => (n, some f))

/-- The `WHERE` clause of `get_notes`: non-null title, not soft-deleted,
and (when requested) `n.ZFOLDER = ?`. -/
def whereNotes {τ : Type} (folder_id : Option Nat) (n : CloudObject τ) : Bool :=
  n.ztitle1 ≠ none && notDeleted n &&
    (match folder_id with
     | none => true
     | some fid => n.zfolder = some fid)

/-- The `Note(...)` construction of `get_notes` (notes_reader.py 228-238):
`body` is left empty in listings. -/
def noteOfRow {τ : Type} (tsIso : Option τ → Option (List Char))
    (nf : CloudObject τ × Option (CloudObject τ)) : Note where
  id := nf.1.z_pk
  title := pyOrStr nf.1.ztitle1 []
  snippet := pyOrStr nf.1.zsnippet []
  body := []
  folder := pyOrStr (nf.2.bind CloudObject.ztitle2) "Notes".data
  created := pyOrStr (tsIso nf.1.zcreationdate3) []
  modified := pyOrStr (tsIso nf.1.zmodificationdate1) []
  is_pinned := pyBoolInt nf.1.zispinned
  has_checklist := pyBoolInt nf.1.zhaschecklist

/-- `get_notes` (notes_reader.py 197-241): left-join each note row to its
folder row, keep titled non-deleted rows (optionally one folder), order
pinned-first then modification time descending, and map to `Note` records
whose `body` is the empty string. -/
def get_notes {τ : Type} (le_ts : τ → τ → Bool)
    (tsIso : Option τ → Option (List Char))
    (db : List (CloudObject τ)) (folder_id : Option Nat) : List Note :=
  let joined := db.flatMap (leftJoinFolder db)
  let filtered := joined.filter (fun nf => whereNotes folder_id nf.1)
  let sorted := sortLe (fun a b => notesLe le_ts a.1 b.1) filtered
  sorted.map (noteOfRow tsIso)

/-- The LEFT JOIN conditions of `get_folders` for a note row `n` against a
folder row `f`: `n.ZFOLDER = f.Z_PK AND n.ZTITLE1 IS NOT NULL AND
(n.ZMARKEDFORDELETION IS NULL OR n.ZMARKEDFORDELETION = 0)`. -/
def countedNote {τ : Type} (f n : CloudObject τ) : Bool :=
  n.zfolder = some f.z_pk && n.ztitle1 ≠ none && notDeleted n

/-- `COUNT(n.Z_PK)` for one folder group in `get_folders`: the number of
rows satisfying the LEFT JOIN conditions (titled, non-deleted notes of the
folder); when none match, the single NULL-extended row contributes 0. -/
def folderNoteCount {τ : Type} (db : List (CloudObject τ)) (f : CloudObject τ) : Nat :=
  (db.filter (countedNote f)).length

/-- `get_folders` (notes_reader.py 173-194). -/
def get_folders {τ : Type} (db : List (CloudObject τ)) : List Folder :=
  let frows := db.filter (fun f => f.ztitle2 ≠ none && notDeleted f)
  let sorted := sortLe (fun a b => lexLe (a.ztitle2.getD []) (b.ztitle2.getD [])) frows
  sorted.map (fun f =>
    { id := f.z_pk, name := f.ztitle2.getD [], note_count := folderNoteCount db f })

/-- SQL `LEFT JOIN ZICNOTEDATA nd ON nd.ZNOTE = n.Z_PK` in `get_note`. -/
def leftJoinNoteData {τ : Type} (ndTable : List NoteData)
    (r : CloudObject τ × Option (CloudObject τ)) :
    List ((CloudObject τ × Option (CloudObject τ)) × Option NoteData) :=
  match ndTable.filter (fun nd => nd.znote = some r.1.z_pk) with
  | [] => [(r, none)]
  | nds => nds.map (fun nd => (r, some nd))

/-- `get_note` (notes_reader.py 244-285): fetch the first joined row for
the requested primary key (`fetchone`); the body is decoded from the
joined `ZDATA` blob only when that blob is present and nonempty (Python
`if r["body_data"]:` — `None` and `b""` are both falsy). -/
def get_note {ε τ : Type} (gzipDecompress zlibDecompress : Bytes → Except ε Bytes)
    (wTab : Nat → Bool) (tsIso : Option τ → Option (List Char))
    (db : List (CloudObject τ)) (ndTable : List NoteData) (note_id : Nat) :
    Option Note :=
  let joined := (db.flatMap (leftJoinFolder db)).flatMap (leftJoinNoteData ndTable)
  let rows := joined.filter (fun r => r.1.1.z_pk = note_id && notDeleted r.1.1)
  match rows.head? with
  | none => none
  | some r =>
    let body_data := r.2.bind NoteData.zdata
    let body : List Char :=
      match body_data with
      | some d =>
        if d = [] then []
        else _extract_text_from_protobuf gzipDecompress zlibDecompress wTab d
      | none => []
    some
      { id := r.1.1.z_pk
        title := pyOrStr r.1.1.ztitle1 []
        snippet := pyOrStr r.1.1.zsnippet []
        body := body
        folder := pyOrStr (r.1.2.bind CloudObject.ztitle2) "Notes".data
        created := pyOrStr (tsIso r.1.1.zcreationdate3) []
        modified := pyOrStr (tsIso r.1.1.zmodificationdate1) []
        is_pinned := pyBoolInt r.1.1.zispinned
        has_checklist := pyBoolInt r.1.1.zhaschecklist }


/-! ### Specification-side definitions

These definitions are written from the wording of the specification (and,
for `fallbackClaimed`, from the wording of the claim under test); the
theorems below compare them with the embedded source functions. -/

/-- The `_parse_protobuf` loop entered at cursor position `pos` with the
fields accumulated so far; `_parse_protobuf data = parseFrom data 0
emptyFields`. -/
def parseFrom (data : Bytes) (pos : Nat) (fields : Fields) : Fields :=
  parseProtobufAux data (data.length - pos) pos fields

/-- The bytes one varint occupies at the head of `l` (spec 4.2): the
shortest prefix ending in a byte with a clear top bit, or all of `l` when
the buffer ends mid-varint. -/
def varintSpecBytes : Bytes → Bytes
  | [] => []
  | b :: bs => if b &&& 0x80 = 0 then [b] else b :: varintSpecBytes bs

/-- The numeric value the spec assigns to a varint: each byte contributes
its low 7 bits, later bytes more significant (the shift grows by 7 per
byte, so byte `i` is weighted by `128^i`). -/
def varintSpecValue : Bytes → Nat
  | [] => 0
  | b :: bs => (b &&& 0x7F) + 128 * varintSpecValue bs

/-- The text runs the spec prescribes for the structured extractor's happy
path: for each field-3 sub-message in parse order, each of its field-2
byte strings in order; runs that UTF-8-decode are kept and runs that fail
are skipped. -/
def structuredSpecParts (paras : List Bytes) : List (List Char) :=
  paras.flatMap (fun para_data =>
    ((_parse_protobuf para_data) 2).filterMap (fun text_bytes =>
      match utf8DecodeStrict text_bytes with
      | .ok s => some s
      | .error _ => none))

/-- The maximal contiguous runs of characters satisfying `p` (spec 4.4),
in order; characters outside every run are discarded. Same fuel
convention as `findallRunsAux`. -/
def classRunsAux (p : Char → Bool) : Nat → List Char → List (List Char)
  | _, [] => []
  | 0, _ :: _ => []
  | fuel + 1, c :: cs =>
    if p c then (c :: cs).takeWhile p :: classRunsAux p fuel ((c :: cs).dropWhile p)
    else classRunsAux p fuel cs

def classRuns (p : Char → Bool) (l : List Char) : List (List Char) :=
  classRunsAux p l.length l

/-- The character class exactly as claim C6 words it: word characters,
whitespace, the listed punctuation, and any character in the extended
Unicode range above the Latin-1 supplement start (code point beyond 0x80),
with no upper bound. -/
def claimedCharClass (wTab : Nat → Bool) (c : Char) : Bool :=
  pyIsWord wTab c || pyIsSpace c || fallbackPunct c || 0x80 < c.toNat

/-- The fallback scanner exactly as claim C6 describes it: maximal runs of
length at least four over `claimedCharClass`, concatenated with
single-space separators (no final trim), empty when no run matches. -/
def fallbackClaimed (wTab : Nat → Bool) (decompressed : Bytes) : List Char :=
  let parts := (classRuns (claimedCharClass wTab) (utf8DecodeReplace decompressed)).filter
    (fun r => 4 ≤ r.length)
  if parts = [] then [] else joinWith [' '] parts

/-- The fallback scanner as the amended claim describes it: maximal runs of
length at least four over the pattern's actual class (word characters,
whitespace, the listed punctuation, and code points 0xC0-0xFFFF),
concatenated with single-space separators and stripped of surrounding
whitespace, empty when no run matches. -/
def fallbackAmendedSpec (wTab : Nat → Bool) (decompressed : Bytes) : List Char :=
  let parts := (classRuns (fallbackCharClass wTab) (utf8DecodeReplace decompressed)).filter
    (fun r => 4 ≤ r.length)
  if parts = [] then [] else pyStrip (joinWith [' '] parts)

/-- The folder row the LEFT JOIN pairs first with a note row (the pairing
`fetch` order exposes). -/
def firstFolderMatch {τ : Type} (db : List (CloudObject τ)) (n : CloudObject τ) :
    Option (CloudObject τ) :=
  (db.filter (fun f => n.zfolder = some f.z_pk)).head?

/-! ### Concrete witness fixtures -/

/-- Wire encoding of the synthetic message of spec section 8: root field 2
holds one sub-message whose field 3 holds two sub-messages whose field 2
holds the UTF-8 bytes of "Hello" and "World". Tags: `0x12` is field 2 wire
type 2, `0x1A` is field 3 wire type 2. -/
def helloWorldMessage : Bytes :=
  [0x12, 18,
    0x1A, 7, 0x12, 5, 72, 101, 108, 108, 111,
    0x1A, 7, 0x12, 5, 87, 111, 114, 108, 100]

/-- The analogous synthetic encoding of the two paragraphs "Line one" and
"Line two". -/
def lineMessage : Bytes :=
  [0x12, 24,
    0x1A, 10, 0x12, 8, 76, 105, 110, 101, 32, 111, 110, 101,
    0x1A, 10, 0x12, 8, 76, 105, 110, 101, 32, 116, 119, 111]

/-- A decompressor that always raises. -/
def wFailDecompress : Bytes → Except Unit Bytes := fun _ => .error ()

/-- A `\w` table for code points at and above 0x100 used in concrete
witnesses; the witnesses only involve characters below 0x100, for which
the exact table `latin1Word` applies, so this choice is never consulted. -/
def wTab0 : Nat → Bool := fun _ => false

/-- A timestamp converter for concrete witnesses. -/
def wTsIso : Option Int → Option (List Char) := fun _ => none

/-- A timestamp order for concrete witnesses. -/
def wLeTs : Int → Int → Bool := fun a b => a ≤ b

/-- Witness rows: a live titled note (pk 1), a folder (pk 10), a note in
that folder (pk 2), and a soft-deleted titled note in that folder (pk 3,
deletion marker 1). -/
def wRow1 : CloudObject Int :=
  ⟨1, some "A".data, none, none, none, none, none, none, none, none⟩

def wFolderRow : CloudObject Int :=
  ⟨10, none, some "F".data, none, none, none, none, none, none, none⟩

def wNote2 : CloudObject Int :=
  ⟨2, some "B".data, none, none, some 10, some 0, none, none, none, none⟩

def wDeleted3 : CloudObject Int :=
  ⟨3, some "C".data, none, none, some 10, some 1, none, none, none, none⟩

def wdb : List (CloudObject Int) := [wRow1, wFolderRow, wNote2, wDeleted3]

/-- Witness `ZICNOTEDATA` row: a nonempty body blob for note pk 1. -/
def wND1 : NoteData := ⟨some 1, some [9]⟩

/-- The `Note` record `get_note` produces for `wRow1` with `wND1` as body
blob when both decompressors fail (body degrades to empty). -/
def wN : Note :=
  ⟨1, "A".data, [], [], "Notes".data, [], [], false, false⟩

/-! ### Helper lemmas -/

theorem readVarintAux_fuel_irrelevant (data : Bytes) (f1 f2 pos result shift : Nat)
    (h1 : data.length ≤ pos + f1) (h2 : data.length ≤ pos + f2) :
    readVarintAux data f1 pos result shift = readVarintAux data f2 pos result shift := by
  induction f1 generalizing f2 pos result shift with
  | zero =>
    cases f2 with
    | zero => rfl
    | succ f2 =>
      have hge : ¬ pos < data.length := by omega
      simp [readVarintAux, hge]
  | succ f1 ih =>
    cases f2 with
    | zero =>
      have hge : ¬ pos < data.length := by omega
      simp [readVarintAux, hge]
    | succ f2 =>
      by_cases hlt : pos < data.length
      · simp only [readVarintAux, dif_pos hlt]
        split
        · rfl
        · exact ih f2 (pos + 1) _ _ (by omega) (by omega)
      · simp [readVarintAux, hlt]

theorem readVarintAux_le (data : Bytes) (fuel pos result shift : Nat) :
    pos ≤ (readVarintAux data fuel pos result shift).2 := by
  induction fuel generalizing pos result shift with
  | zero => exact Nat.le_refl pos
  | succ fuel ih =>
    unfold readVarintAux
    split
    · dsimp only
      split
      · exact Nat.le_succ pos
      · exact Nat.le_trans (Nat.le_succ pos) (ih (pos + 1) _ _)
    · exact Nat.le_refl pos

theorem readVarintAux_le_length (data : Bytes) (fuel pos result shift : Nat)
    (hp : pos ≤ data.length) :
    (readVarintAux data fuel pos result shift).2 ≤ data.length := by
  induction fuel generalizing pos result shift with
  | zero => exact hp
  | succ fuel ih =>
    unfold readVarintAux
    split
    · dsimp only
      split
      · omega
      · exact ih (pos + 1) _ _ (by omega)
    · exact hp

theorem readVarint_le (data : Bytes) (pos : Nat) :
    pos ≤ (_read_varint data pos).2 :=
  readVarintAux_le data _ pos 0 0

theorem readVarint_le_length (data : Bytes) (pos : Nat) (hp : pos ≤ data.length) :
    (_read_varint data pos).2 ≤ data.length :=
  readVarintAux_le_length data _ pos 0 0 hp

theorem readVarint_lt (data : Bytes) (pos : Nat) (h : pos < data.length) :
    pos < (_read_varint data pos).2 := by
  unfold _read_varint
  have hf : data.length - pos = (data.length - pos - 1) + 1 := by omega
  rw [hf]
  unfold readVarintAux
  simp only [h, dif_pos]
  split
  · exact Nat.lt_succ_self pos
  · exact Nat.lt_of_lt_of_le (Nat.lt_succ_self pos) (readVarintAux_le data _ (pos + 1) _ _)

theorem parseProtobufAux_fuel_irrelevant (data : Bytes) (f1 f2 pos : Nat) (fields : Fields)
    (h1 : data.length ≤ pos + f1) (h2 : data.length ≤ pos + f2) :
    parseProtobufAux data f1 pos fields = parseProtobufAux data f2 pos fields := by
  induction f1 generalizing f2 pos fields with
  | zero =>
    cases f2 with
    | zero => rfl
    | succ f2 =>
      have hge : ¬ pos < data.length := by omega
      simp [parseProtobufAux, hge]
  | succ f1 ih =>
    cases f2 with
    | zero =>
      have hge : ¬ pos < data.length := by omega
      simp [parseProtobufAux, hge]
    | succ f2 =>
      by_cases hlt : pos < data.length
      · have hp1 := readVarint_lt data pos hlt
        have hp2 := readVarint_le data (_read_varint data pos).2
        simp only [parseProtobufAux, if_pos hlt]
        split
        · exact ih f2 _ fields (by omega) (by omega)
        · split
          · split
            · rfl
            · exact ih f2 _ _ (by omega) (by omega)
          · split
            · exact ih f2 _ fields (by omega) (by omega)
            · split
              · exact ih f2 _ fields (by omega) (by omega)
              · rfl
      · simp [parseProtobufAux, hlt]

theorem utf8DecodeReplaceAux_fuel_irrelevant (f1 f2 : Nat) (l : Bytes)
    (h1 : l.length ≤ f1) (h2 : l.length ≤ f2) :
    utf8DecodeReplaceAux f1 l = utf8DecodeReplaceAux f2 l := by
  induction f1 generalizing f2 l with
  | zero =>
    match l with
    | [] => cases f2 <;> rfl
    | _ :: _ => simp at h1
  | succ f1 ih =>
    match l with
    | [] => cases f2 <;> rfl
    | b :: rest =>
      match f2 with
      | 0 => simp at h2
      | f2 + 1 =>
        have hd : ∀ k, (rest.drop k).length ≤ f1 := by
          intro k; simp only [List.length_drop]
          simp only [List.length_cons] at h1; omega
        have hd2 : ∀ k, (rest.drop k).length ≤ f2 := by
          intro k; simp only [List.length_drop]
          simp only [List.length_cons] at h2; omega
        simp only [utf8DecodeReplaceAux]
        rcases hstep : utf8Step b rest with ⟨cp | _, k⟩ <;>
          simp only [hstep] <;> rw [ih f2 _ (hd k) (hd2 k)]

theorem utf8DecodeStrictAux_fuel_irrelevant (f1 f2 : Nat) (l : Bytes)
    (h1 : l.length ≤ f1) (h2 : l.length ≤ f2) :
    utf8DecodeStrictAux f1 l = utf8DecodeStrictAux f2 l := by
  induction f1 generalizing f2 l with
  | zero =>
    match l with
    | [] => cases f2 <;> rfl
    | _ :: _ => simp at h1
  | succ f1 ih =>
    match l with
    | [] => cases f2 <;> rfl
    | b :: rest =>
      match f2 with
      | 0 => simp at h2
      | f2 + 1 =>
        have hd : ∀ k, (rest.drop k).length ≤ f1 := by
          intro k; simp only [List.length_drop]
          simp only [List.length_cons] at h1; omega
        have hd2 : ∀ k, (rest.drop k).length ≤ f2 := by
          intro k; simp only [List.length_drop]
          simp only [List.length_cons] at h2; omega
        simp only [utf8DecodeStrictAux]
        rcases hstep : utf8Step b rest with ⟨cp | _, k⟩ <;> simp only [hstep]
        · rw [ih f2 _ (hd k) (hd2 k)]

theorem length_dropWhile_le (p : α → Bool) (l : List α) :
    (l.dropWhile p).length ≤ l.length := by
  induction l with
  | nil => exact Nat.le_refl 0
  | cons x xs ih =>
    rw [List.dropWhile_cons]
    split
    · exact Nat.le_trans ih (Nat.le_succ _)
    · exact Nat.le_refl _

theorem or_shiftLeft_of_lt (result x s : Nat) (hr : result < 2 ^ s) :
    result ||| (x <<< s) = result + x * 2 ^ s := by
  rw [Nat.shiftLeft_eq, Nat.mul_comm x (2 ^ s), Nat.or_comm, ← Nat.mul_add_lt_is_or hr x]
  omega

theorem readVarintAux_spec (data : Bytes) (fuel pos result shift : Nat)
    (hf : data.length ≤ pos + fuel) (hr : result < 2 ^ shift) :
    readVarintAux data fuel pos result shift
      = (result + varintSpecValue (varintSpecBytes (data.drop pos)) * 2 ^ shift,
         pos + (varintSpecBytes (data.drop pos)).length) := by
  induction fuel generalizing pos result shift with
  | zero =>
    have hd : data.drop pos = [] := List.drop_eq_nil_of_le (by omega)
    simp [readVarintAux, hd, varintSpecBytes, varintSpecValue]
  | succ fuel ih =>
    by_cases hlt : pos < data.length
    · have hdrop : data.drop pos = data.get ⟨pos, hlt⟩ :: data.drop (pos + 1) :=
        List.drop_eq_get_cons hlt
      have hx : data.get ⟨pos, hlt⟩ &&& 0x7F ≤ 0x7F := Nat.and_le_right
      have hx2 : (data.get ⟨pos, hlt⟩ &&& 0x7F) * 2 ^ shift ≤ 127 * 2 ^ shift :=
        Nat.mul_le_mul hx (Nat.le_refl _)
      have hpow : 2 ^ (shift + 7) = 2 ^ shift * 128 := by
        rw [Nat.pow_add]
      simp only [readVarintAux, dif_pos hlt]
      by_cases hterm : data.get ⟨pos, hlt⟩ &&& 0x80 = 0
      · simp only [hterm, if_pos, hdrop]
        simp only [varintSpecBytes, if_pos hterm, varintSpecValue]
        rw [or_shiftLeft_of_lt _ _ _ hr]
        simp [Nat.mul_comm]
      · simp only [hterm, if_neg, hdrop]
        rw [ih (pos + 1) _ (shift + 7) (by omega)
            (by rw [or_shiftLeft_of_lt _ _ _ hr, hpow]; omega)]
        rw [or_shiftLeft_of_lt _ _ _ hr]
        simp only [varintSpecBytes, if_neg hterm, varintSpecValue, List.length_cons,
          if_false, Prod.mk.injEq]
        constructor
        · rw [hpow]; ring
        · omega
    · have hd : data.drop pos = [] := List.drop_eq_nil_of_le (by omega)
      simp [readVarintAux, hlt, hd, varintSpecBytes, varintSpecValue]

theorem varintSpecBytes_all_high (l : Bytes) (h : ∀ b ∈ l, b &&& 0x80 ≠ 0) :
    varintSpecBytes l = l := by
  induction l with
  | nil => rfl
  | cons x xs ih =>
    have hx := h x (by simp)
    simp only [varintSpecBytes, if_neg hx]
    rw [ih (fun b hb => h b (by simp [hb]))]

theorem varintSpecBytes_ne_nil (x : Nat) (xs : Bytes) :
    varintSpecBytes (x :: xs) ≠ [] := by
  simp only [varintSpecBytes]
  split <;> simp

theorem varintSpecBytes_dropLast_high (l : Bytes) :
    ∀ b ∈ (varintSpecBytes l).dropLast, b &&& 0x80 ≠ 0 := by
  induction l with
  | nil => simp [varintSpecBytes]
  | cons x xs ih =>
    simp only [varintSpecBytes]
    split
    · simp
    · rename_i hx
      intro b hb
      cases hxs : varintSpecBytes xs with
      | nil => rw [hxs] at hb; simp at hb
      | cons y ys =>
        rw [hxs] at hb
        rw [List.dropLast_cons₂] at hb
        rcases List.mem_cons.mp hb with hbx | hbtail
        · rw [hbx]; exact hx
        · exact ih b (by rw [hxs]; exact hbtail)

theorem varintSpecBytes_getLast_low (l : Bytes) :
    ∀ b, (varintSpecBytes l).getLast? = some b →
      b &&& 0x80 = 0 ∨ varintSpecBytes l = l := by
  induction l with
  | nil => simp [varintSpecBytes]
  | cons x xs ih =>
    intro b hb
    simp only [varintSpecBytes] at hb ⊢
    by_cases hx : x &&& 0x80 = 0
    · rw [if_pos hx] at hb
      simp only [List.getLast?_singleton, Option.some.injEq] at hb
      left; exact hb ▸ hx
    · rw [if_neg hx] at hb
      rw [if_neg hx]
      cases hxs : varintSpecBytes xs with
      | nil =>
        rw [hxs] at hb
        simp only [List.getLast?_singleton, Option.some.injEq] at hb
        have : xs = [] := by
          cases xs with
          | nil => rfl
          | cons y ys => exact absurd hxs (varintSpecBytes_ne_nil y ys)
        right; rw [this]
      | cons y ys =>
        rw [hxs] at hb
        rw [List.getLast?_cons_cons] at hb
        rcases ih b (by rw [hxs]; exact hb) with hlow | heq
        · left; exact hlow
        · right; rw [← heq, hxs]

/-- C3: for every byte buffer and starting position, `_read_varint`
accumulates the low 7 bits of each consumed byte with a growing bit-shift
(later bytes more significant, weight `128^i`), consuming bytes up to and
including the first one with a clear top bit — every earlier consumed byte
has its top bit set, and the last consumed byte either has a clear top bit
or the buffer ended mid-varint, in which case the partially accumulated
value and the end position are returned silently. -/
theorem C3_varint (data : Bytes) (pos : Nat) :
    _read_varint data pos
      = (varintSpecValue (varintSpecBytes (data.drop pos)),
         pos + (varintSpecBytes (data.drop pos)).length)
    ∧ (∀ b ∈ (varintSpecBytes (data.drop pos)).dropLast, b &&& 0x80 ≠ 0)
    ∧ (∀ b, (varintSpecBytes (data.drop pos)).getLast? = some b →
        b &&& 0x80 = 0 ∨ varintSpecBytes (data.drop pos) = data.drop pos)
    ∧ ((∀ b ∈ data.drop pos, b &&& 0x80 ≠ 0) → pos ≤ data.length →
        _read_varint data pos = (varintSpecValue (data.drop pos), data.length)) := by
  have hmain : _read_varint data pos
      = (varintSpecValue (varintSpecBytes (data.drop pos)),
         pos + (varintSpecBytes (data.drop pos)).length) := by
    unfold _read_varint
    rw [readVarintAux_spec data _ pos 0 0 (by omega) (by norm_num)]
    simp
  refine ⟨hmain, varintSpecBytes_dropLast_high _, varintSpecBytes_getLast_low _, ?_⟩
  intro hall hpos
  rw [hmain, varintSpecBytes_all_high _ hall, List.length_drop]
  congr 1
  omega

/-- Witness for C3 at the truncated buffer `[0x96, 0x80]` (both bytes have
their top bit set): decoding from position 0 consumes everything and
returns the partial value `0x16 + 128 * 0 = 22` with the end position. -/
theorem C3_varint_witness : _read_varint [0x96, 0x80] 0 = (22, 2) := by
  have h := (C3_varint [0x96, 0x80] 0).2.2.2 (by decide) (by decide)
  rw [h]
  decide

/-- C1: the decoder `_extract_text_from_protobuf` is total — for every
compressed blob (and any behaviour of the external decompressors) its
exception-level semantics returns `Except.ok` with the string the pure
function computes; no exception escapes to the caller. -/
theorem C1_decoder_total {ε : Type} (gzipDecompress zlibDecompress : Bytes → Except ε Bytes)
    (wTab : Nat → Bool) (data : Bytes) :
    extractTextE gzipDecompress zlibDecompress wTab data
      = .ok (_extract_text_from_protobuf gzipDecompress zlibDecompress wTab data) := by
  unfold extractTextE _extract_text_from_protobuf
  cases gzipDecompress data with
  | ok d => rfl
  | error e =>
    cases zlibDecompress data with
    | ok d => rfl
    | error e => rfl

/-- C2: the synthetic message with root field 2 → field 3 → field 2 runs
"Hello" and "World" structurally decodes to `"Hello\nWorld"`; and any blob
that decompresses (via the first, gzip decompressor) to the analogous
encoding of "Line one" / "Line two" runs through the full decoder pipeline
to exactly `"Line one\nLine two"` after sanitization. -/
theorem C2_round_trip :
    _try_structured_parse helloWorldMessage = "Hello\nWorld".data
    ∧ ∀ {ε : Type} (gzipDecompress zlibDecompress : Bytes → Except ε Bytes)
        (wTab : Nat → Bool) (blob : Bytes),
        gzipDecompress blob = .ok lineMessage →
        _extract_text_from_protobuf gzipDecompress zlibDecompress wTab blob
          = "Line one\nLine two".data := by
  constructor
  · decide
  · intro ε gz zl wTab blob hgz
    have hs : _try_structured_parse lineMessage = "Line one\nLine two".data := by decide
    unfold _extract_text_from_protobuf
    rw [hgz]
    dsimp only
    unfold extractFromDecompressed
    rw [hs]
    dsimp only
    rw [if_neg (by decide : ¬("Line one\nLine two".data = ([] : List Char)))]
    decide

/-- Witness for C2: the gzip decompressor that returns the synthetic
"Line one"/"Line two" encoding satisfies the round-trip hypothesis, and
the pipeline produces the expected text. -/
theorem C2_round_trip_witness :
    _extract_text_from_protobuf (fun _ => .ok lineMessage) wFailDecompress wTab0 lineMessage
      = "Line one\nLine two".data :=
  C2_round_trip.2 (fun _ => .ok lineMessage) wFailDecompress wTab0 lineMessage rfl

theorem findallRunsAux_fuel_irrelevant (p : Char → Bool) (f1 f2 : Nat) (l : List Char)
    (h1 : l.length ≤ f1) (h2 : l.length ≤ f2) :
    findallRunsAux p f1 l = findallRunsAux p f2 l := by
  induction f1 generalizing f2 l with
  | zero =>
    match l with
    | [] => cases f2 <;> rfl
    | _ :: _ => simp at h1
  | succ f1 ih =>
    match l with
    | [] => cases f2 <;> rfl
    | c :: cs =>
      match f2 with
      | 0 => simp at h2
      | f2 + 1 =>
        simp only [List.length_cons] at h1 h2
        simp only [findallRunsAux]
        split
        · rename_i hpc
          have hdw : ((c :: cs).dropWhile p).length ≤ cs.length := by
            rw [List.dropWhile_cons, if_pos hpc]
            exact length_dropWhile_le p cs
          split
          · rw [ih f2 ((c :: cs).dropWhile p) (by omega) (by omega)]
          · rw [ih f2 cs (by omega) (by omega)]
        · rw [ih f2 cs (by omega) (by omega)]

/-! ### Claim C4: wire-format reader partial-result policy -/

/-- One unfolding of the `_parse_protobuf` loop from an arbitrary cursor
state, stated through `parseFrom` (fuel renormalised by
`parseProtobufAux_fuel_irrelevant`). -/
theorem parseFrom_step (data : Bytes) (pos : Nat) (fields : Fields)
    (hp : pos < data.length) :
    parseFrom data pos fields =
      if (_read_varint data pos).1 &&& 0x07 = 0 then
        parseFrom data (_read_varint data (_read_varint data pos).2).2 fields
      else if (_read_varint data pos).1 &&& 0x07 = 2 then
        if data.length < (_read_varint data (_read_varint data pos).2).2
            + (_read_varint data (_read_varint data pos).2).1 then fields
        else
          parseFrom data
            ((_read_varint data (_read_varint data pos).2).2
              + (_read_varint data (_read_varint data pos).2).1)
            (appendField fields ((_read_varint data pos).1 >>> 3)
              ((data.drop (_read_varint data (_read_varint data pos).2).2).take
                (_read_varint data (_read_varint data pos).2).1))
      else if (_read_varint data pos).1 &&& 0x07 = 5 then
        parseFrom data ((_read_varint data pos).2 + 4) fields
      else if (_read_varint data pos).1 &&& 0x07 = 1 then
        parseFrom data ((_read_varint data pos).2 + 8) fields
      else fields := by
  have h1 : pos < (_read_varint data pos).2 := readVarint_lt data pos hp
  have h2 : (_read_varint data pos).2 ≤ (_read_varint data (_read_varint data pos).2).2 :=
    readVarint_le data (_read_varint data pos).2
  unfold parseFrom
  have hf : data.length - pos = (data.length - pos - 1) + 1 := by omega
  rw [hf]
  simp only [parseProtobufAux, if_pos hp]
  by_cases w0 : (_read_varint data pos).1 &&& 0x07 = 0
  · simp only [if_pos w0]
    exact parseProtobufAux_fuel_irrelevant data _ _ _ fields (by omega) (by omega)
  · by_cases w2 : (_read_varint data pos).1 &&& 0x07 = 2
    · simp only [if_neg w0, if_pos w2]
      by_cases hov : data.length < (_read_varint data (_read_varint data pos).2).2
          + (_read_varint data (_read_varint data pos).2).1
      · simp only [if_pos hov]
      · simp only [if_neg hov]
        exact parseProtobufAux_fuel_irrelevant data _ _ _ _ (by omega) (by omega)
    · by_cases w5 : (_read_varint data pos).1 &&& 0x07 = 5
      · simp only [if_neg w0, if_neg w2, if_pos w5]
        exact parseProtobufAux_fuel_irrelevant data _ _ _ fields (by omega) (by omega)
      · by_cases w1 : (_read_varint data pos).1 &&& 0x07 = 1
        · simp only [if_neg w0, if_neg w2, if_neg w5, if_pos w1]
          exact parseProtobufAux_fuel_irrelevant data _ _ _ fields (by omega) (by omega)
        · simp only [if_neg w0, if_neg w2, if_neg w5, if_neg w1]

/-- C4: at any cursor state, a length-delimited entry (wire kind 2) is
appended to its field number's value list exactly when the declared length
fits in the remaining buffer; a length overrun stops parsing with exactly
the fields recovered so far; a wire kind other than 0, 1, 2, 5 stops
parsing with the partial result; and `_parse_protobuf` is the loop started
at cursor 0 with no fields (totality — no exception — is inherent in the
functions being total). -/
theorem C4_parse_policy (data : Bytes) (pos : Nat) (fields : Fields)
    (hp : pos < data.length) :
    ((_read_varint data pos).1 &&& 0x07 = 2 →
      (data.length < (_read_varint data (_read_varint data pos).2).2
          + (_read_varint data (_read_varint data pos).2).1 →
        parseFrom data pos fields = fields) ∧
      ((_read_varint data (_read_varint data pos).2).2
          + (_read_varint data (_read_varint data pos).2).1 ≤ data.length →
        parseFrom data pos fields
          = parseFrom data
              ((_read_varint data (_read_varint data pos).2).2
                + (_read_varint data (_read_varint data pos).2).1)
              (appendField fields ((_read_varint data pos).1 >>> 3)
                ((data.drop (_read_varint data (_read_varint data pos).2).2).take
                  (_read_varint data (_read_varint data pos).2).1)))) ∧
    ((_read_varint data pos).1 &&& 0x07 ≠ 0 →
      (_read_varint data pos).1 &&& 0x07 ≠ 1 →
      (_read_varint data pos).1 &&& 0x07 ≠ 2 →
      (_read_varint data pos).1 &&& 0x07 ≠ 5 →
      parseFrom data pos fields = fields) ∧
    _parse_protobuf data = parseFrom data 0 emptyFields := by
  refine ⟨?_, ?_, rfl⟩
  · intro w2
    constructor
    · intro hov
      rw [parseFrom_step data pos fields hp]
      have w0 : ¬ (_read_varint data pos).1 &&& 0x07 = 0 := by omega
      simp only [if_neg w0, if_pos w2, if_pos hov]
    · intro hfit
      rw [parseFrom_step data pos fields hp]
      have w0 : ¬ (_read_varint data pos).1 &&& 0x07 = 0 := by omega
      have hov : ¬ data.length < (_read_varint data (_read_varint data pos).2).2
          + (_read_varint data (_read_varint data pos).2).1 := by omega
      simp only [if_neg w0, if_pos w2, if_neg hov]
  · intro w0 w1 w2 w5
    rw [parseFrom_step data pos fields hp]
    simp only [if_neg w0, if_neg w2, if_neg w5, if_neg w1]

/-- Witness for C4: the buffer `[0x12, 0x05]` declares field 2 wire kind 2
with length 5 but only 0 bytes remain, so parsing stops with no fields;
the buffer `[0x0F]` carries wire kind 7, which stops parsing at once. -/
theorem C4_parse_policy_witness :
    parseFrom [0x12, 0x05] 0 emptyFields = emptyFields ∧
    parseFrom [0x0F] 0 emptyFields = emptyFields :=
  ⟨((C4_parse_policy [0x12, 0x05] 0 emptyFields (by decide)).1 (by decide)).1 (by decide),
   (C4_parse_policy [0x0F] 0 emptyFields (by decide)).2.1
     (by decide) (by decide) (by decide) (by decide)⟩

/-! ### Claim C5: structured text extractor -/

theorem foldl_decode_filterMap (l : List Bytes) (acc : List (List Char)) :
    l.foldl (fun acc2 text_bytes =>
        match utf8DecodeStrict text_bytes with
        | .ok s => acc2 ++ [s]
        | .error _ => acc2) acc
      = acc ++ l.filterMap (fun text_bytes =>
          match utf8DecodeStrict text_bytes with
          | .ok s => some s
          | .error _ => none) := by
  induction l generalizing acc with
  | nil => simp
  | cons x xs ih =>
    simp only [List.foldl_cons, List.filterMap_cons]
    cases hu : utf8DecodeStrict x with
    | ok s => rw [ih]; simp
    | error e => rw [ih]

theorem structuredTextParts_eq (paras : List Bytes) :
    structuredTextParts paras = structuredSpecParts paras := by
  unfold structuredTextParts structuredSpecParts
  suffices h : ∀ acc : List (List Char),
      paras.foldl (fun text_parts para_data =>
        if (_parse_protobuf para_data) 2 = [] then text_parts
        else ((_parse_protobuf para_data) 2).foldl (fun acc2 text_bytes =>
          match utf8DecodeStrict text_bytes with
          | .ok s => acc2 ++ [s]
          | .error _ => acc2) text_parts) acc
      = acc ++ paras.flatMap (fun para_data =>
          ((_parse_protobuf para_data) 2).filterMap (fun text_bytes =>
            match utf8DecodeStrict text_bytes with
            | .ok s => some s
            | .error _ => none)) by
    simpa using h []
  induction paras with
  | nil => simp
  | cons pd pds ih =>
    intro acc
    simp only [List.foldl_cons, List.flatMap_cons]
    by_cases hpd : (_parse_protobuf pd) 2 = []
    · rw [if_pos hpd, ih acc, hpd]
      simp
    · rw [if_neg hpd, foldl_decode_filterMap, ih]
      simp

/-- C5: the structured extractor returns empty when the parsed root lacks
field 2, or when the first field-2 value's parse lacks field 3; otherwise
it returns the runs prescribed by the spec — for each field-3 sub-message
in parse order, each of its field-2 byte strings in order, keeping runs
that UTF-8-decode and silently skipping runs that fail — joined with
newline separators. -/
theorem C5_structured (d : Bytes) :
    ((_parse_protobuf d) 2 = [] → _try_structured_parse d = []) ∧
    (∀ v0 rest, (_parse_protobuf d) 2 = v0 :: rest →
      ((_parse_protobuf v0) 3 = [] → _try_structured_parse d = []) ∧
      ((_parse_protobuf v0) 3 ≠ [] →
        _try_structured_parse d
          = joinWith ['\n'] (structuredSpecParts ((_parse_protobuf v0) 3)))) := by
  constructor
  · intro h2
    unfold _try_structured_parse
    rw [h2]
  · intro v0 rest hv
    constructor
    · intro h3
      unfold _try_structured_parse
      rw [hv]
      dsimp only
      rw [if_pos h3]
    · intro h3
      unfold _try_structured_parse
      rw [hv]
      dsimp only
      rw [if_neg h3, structuredTextParts_eq]
      by_cases hparts : structuredSpecParts ((_parse_protobuf v0) 3) = []
      · rw [if_pos hparts, hparts]
        rfl
      · rw [if_neg hparts]

/-- Witness for C5: the empty buffer parses to a root without field 2 and
extracts to the empty string; the Hello/World message extracts to the
newline-join of the spec-prescribed runs of its container's field 3. -/
theorem C5_structured_witness :
    _try_structured_parse [] = [] ∧
    _try_structured_parse helloWorldMessage
      = joinWith ['\n'] (structuredSpecParts ((_parse_protobuf
          [0x1A, 7, 0x12, 5, 72, 101, 108, 108, 111,
           0x1A, 7, 0x12, 5, 87, 111, 114, 108, 100]) 3)) :=
  ⟨(C5_structured []).1 (by decide),
   ((C5_structured helloWorldMessage).2
      [0x1A, 7, 0x12, 5, 72, 101, 108, 108, 111,
       0x1A, 7, 0x12, 5, 87, 111, 114, 108, 100] [] (by decide)).2 (by decide)⟩

/-! ### Claim C6: fallback text scanner -/

theorem classRunsAux_fuel_irrelevant (p : Char → Bool) (f1 f2 : Nat) (l : List Char)
    (h1 : l.length ≤ f1) (h2 : l.length ≤ f2) :
    classRunsAux p f1 l = classRunsAux p f2 l := by
  induction f1 generalizing f2 l with
  | zero =>
    match l with
    | [] => cases f2 <;> rfl
    | _ :: _ => simp at h1
  | succ f1 ih =>
    match l with
    | [] => cases f2 <;> rfl
    | c :: cs =>
      match f2 with
      | 0 => simp at h2
      | f2 + 1 =>
        simp only [List.length_cons] at h1 h2
        simp only [classRunsAux]
        split
        · rename_i hpc
          have hdw : ((c :: cs).dropWhile p).length ≤ cs.length := by
            rw [List.dropWhile_cons, if_pos hpc]
            exact length_dropWhile_le p cs
          rw [ih f2 ((c :: cs).dropWhile p) (by omega) (by omega)]
        · rw [ih f2 cs (by omega) (by omega)]

/-- When the leading class run of `l` is shorter than 4 characters, it is
discarded by the length filter, so the kept runs of `l` and of
`l.dropWhile p` coincide. -/
theorem classRuns_filter_skip_short (p : Char → Bool) (fuel : Nat) (l : List Char)
    (hfu : l.length ≤ fuel) (hshort : (l.takeWhile p).length < 4) :
    (classRunsAux p fuel l).filter (fun r => 4 ≤ r.length)
      = (classRunsAux p fuel (l.dropWhile p)).filter (fun r => 4 ≤ r.length) := by
  match l with
  | [] => rfl
  | c :: cs =>
    by_cases hpc : p c
    · match fuel with
      | 0 => simp at hfu
      | fuel + 1 =>
        simp only [List.length_cons] at hfu
        simp only [classRunsAux, if_pos hpc]
        rw [List.filter_cons_of_neg (by simpa using hshort)]
        have hdw : ((c :: cs).dropWhile p).length ≤ cs.length := by
          rw [List.dropWhile_cons, if_pos hpc]
          exact length_dropWhile_le p cs
        rw [classRunsAux_fuel_irrelevant p fuel (fuel + 1) ((c :: cs).dropWhile p)
          (by omega) (by omega)]
    · rw [List.dropWhile_cons, if_neg hpc]

/-- The regex scanner (`findall` with one-position advance on a failed
match) returns exactly the maximal class runs of length at least four. -/
theorem findallRunsAux_eq_classRuns (p : Char → Bool) (fuel : Nat) (l : List Char)
    (hfu : l.length ≤ fuel) :
    findallRunsAux p fuel l = (classRunsAux p fuel l).filter (fun r => 4 ≤ r.length) := by
  induction fuel generalizing l with
  | zero =>
    match l with
    | [] => rfl
    | _ :: _ => simp at hfu
  | succ fuel ih =>
    match l with
    | [] => rfl
    | c :: cs =>
      simp only [List.length_cons] at hfu
      by_cases hpc : p c
      · have hdw : ((c :: cs).dropWhile p).length ≤ cs.length := by
          rw [List.dropWhile_cons, if_pos hpc]
          exact length_dropWhile_le p cs
        simp only [findallRunsAux, classRunsAux, if_pos hpc]
        by_cases h4 : 4 ≤ ((c :: cs).takeWhile p).length
        · rw [if_pos h4, List.filter_cons_of_pos (by simpa using h4)]
          rw [ih ((c :: cs).dropWhile p) (by omega)]
        · rw [if_neg h4, List.filter_cons_of_neg (by simpa using h4)]
          rw [ih cs (by omega)]
          have hshort : (cs.takeWhile p).length < 4 := by
            rw [List.takeWhile_cons, if_pos hpc] at h4
            simp only [List.length_cons] at h4
            omega
          rw [classRuns_filter_skip_short p fuel cs (by omega) hshort]
          rw [List.dropWhile_cons, if_pos hpc]
      · simp only [findallRunsAux, classRunsAux, if_neg hpc]
        exact ih cs (by omega)

theorem findallRuns_eq_classRuns (p : Char → Bool) (l : List Char) :
    findallRuns p l = (classRuns p l).filter (fun r => 4 ≤ r.length) :=
  findallRunsAux_eq_classRuns p l.length l (Nat.le_refl _)

/-- C6 counterexample: the claim's description of the fallback scanner
disagrees with the code at two concrete inputs. On `b"  abcd"` the code
strips the leading whitespace that the claimed output keeps; on the UTF-8
encoding of `"¡¡¡¡"` (U+00A1, above the Latin-1 supplement start but below
the pattern's actual 0xC0 lower bound and not a word, space or listed
punctuation character) the code finds no run while the claimed class
matches all four characters. -/
theorem C6_fallback_counterexample :
    _fallback_extract_text wTab0 [0x20, 0x20, 0x61, 0x62, 0x63, 0x64] = "abcd".data
    ∧ fallbackClaimed wTab0 [0x20, 0x20, 0x61, 0x62, 0x63, 0x64]
        = ' ' :: ' ' :: "abcd".data
    ∧ _fallback_extract_text wTab0 [0x20, 0x20, 0x61, 0x62, 0x63, 0x64]
        ≠ fallbackClaimed wTab0 [0x20, 0x20, 0x61, 0x62, 0x63, 0x64]
    ∧ _fallback_extract_text wTab0 [0xC2, 0xA1, 0xC2, 0xA1, 0xC2, 0xA1, 0xC2, 0xA1] = []
    ∧ fallbackClaimed wTab0 [0xC2, 0xA1, 0xC2, 0xA1, 0xC2, 0xA1, 0xC2, 0xA1] ≠ [] := by
  refine ⟨by decide, by decide, by decide, by decide, by decide⟩

/-- C6 (amended): the fallback scanner is invoked exactly when the
structured extractor returns the empty string; it decodes the buffer as
UTF-8 with replacement, keeps the maximal contiguous runs of length four
or more over the pattern's class (word characters, whitespace, the
punctuation `. , ; : ! ? ' " ( ) -`, and code points 0xC0 through 0xFFFF),
joins them with single spaces and strips surrounding whitespace, returning
empty when no run matches. -/
theorem C6_fallback_amended (wTab : Nat → Bool) :
    (∀ d : Bytes, extractFromDecompressed wTab d
      = pySanitize (if _try_structured_parse d = []
          then _fallback_extract_text wTab d else _try_structured_parse d)) ∧
    (∀ d : Bytes, _fallback_extract_text wTab d = fallbackAmendedSpec wTab d) := by
  constructor
  · intro d
    rfl
  · intro d
    unfold _fallback_extract_text fallbackAmendedSpec
    dsimp only
    rw [findallRuns_eq_classRuns]

/-! ### Claims C7 and C10: the text sanitizer -/

theorem dropTrailing_decomposition (p : α → Bool) (l : List α) :
    l = dropTrailing p l ++ (l.reverse.takeWhile p).reverse := by
  unfold dropTrailing
  calc l = l.reverse.reverse := (List.reverse_reverse l).symm
  _ = (l.reverse.takeWhile p ++ l.reverse.dropWhile p).reverse := by
      rw [List.takeWhile_append_dropWhile]
  _ = (l.reverse.dropWhile p).reverse ++ (l.reverse.takeWhile p).reverse :=
      List.reverse_append _ _

theorem pyStrip_decomposition (s : List Char) :
    ∃ s1 s2, s = s1 ++ pyStrip s ++ s2 := by
  refine ⟨s.takeWhile pyIsSpace,
    ((s.dropWhile pyIsSpace).reverse.takeWhile pyIsSpace).reverse, ?_⟩
  conv_lhs => rw [← List.takeWhile_append_dropWhile pyIsSpace s]
  rw [List.append_assoc]
  congr 1
  exact dropTrailing_decomposition pyIsSpace (s.dropWhile pyIsSpace)

theorem head_dropWhile_not (p : α → Bool) (l : List α) :
    ∀ c, (l.dropWhile p).head? = some c → p c = false := by
  induction l with
  | nil => intro c h; simp at h
  | cons x xs ih =>
    intro c h
    rw [List.dropWhile_cons] at h
    by_cases hx : p x
    · rw [if_pos hx] at h
      exact ih c h
    · rw [if_neg hx] at h
      simp only [List.head?_cons, Option.some.injEq] at h
      rw [← h]
      exact Bool.eq_false_iff.mpr hx

theorem pyStrip_head_not_space (s : List Char) :
    ∀ c, (pyStrip s).head? = some c → pyIsSpace c = false := by
  intro c h
  have hdec := dropTrailing_decomposition pyIsSpace (s.dropWhile pyIsSpace)
  have hh : (s.dropWhile pyIsSpace).head? = some c := by
    rw [hdec, List.head?_append]
    unfold pyStrip at h
    rw [h]
    rfl
  exact head_dropWhile_not pyIsSpace s c hh

theorem pyStrip_getLast_not_space (s : List Char) :
    ∀ c, (pyStrip s).getLast? = some c → pyIsSpace c = false := by
  intro c h
  unfold pyStrip dropTrailing at h
  rw [List.getLast?_reverse] at h
  exact head_dropWhile_not pyIsSpace (s.dropWhile pyIsSpace).reverse c h

/-- C7: the decoder sanitizes whichever text the structured extractor or
the fallback scanner recovered: every U+2028 is replaced by a newline at
its position (the other characters unchanged, length preserved), every
U+FFFC is removed (the remainder kept in order, as a sublist, with nothing
else removed), the result is trimmed of leading and trailing whitespace (a
contiguous fragment of the input with non-whitespace ends), and
`"  hi  "` sanitizes to `"hi"`. -/
theorem C7_sanitizer :
    (∀ (wTab : Nat → Bool) (d : Bytes), extractFromDecompressed wTab d
      = pySanitize (if _try_structured_parse d = []
          then _fallback_extract_text wTab d else _try_structured_parse d)) ∧
    (∀ s : List Char, (replaceChar s lineSeparator '\n').length = s.length ∧
      (∀ (i : Nat) (h : i < s.length) (h2 : i < (replaceChar s lineSeparator '\n').length),
        (replaceChar s lineSeparator '\n').get ⟨i, h2⟩
          = if s.get ⟨i, h⟩ = lineSeparator then '\n' else s.get ⟨i, h⟩)) ∧
    (∀ s : List Char, objectReplacement ∉ removeChar s objectReplacement ∧
      List.Sublist (removeChar s objectReplacement) s ∧
      (∀ c ∈ s, c ≠ objectReplacement → c ∈ removeChar s objectReplacement)) ∧
    (∀ s : List Char, (∃ s1 s2, s = s1 ++ pyStrip s ++ s2) ∧
      (∀ c, (pyStrip s).head? = some c → pyIsSpace c = false) ∧
      (∀ c, (pyStrip s).getLast? = some c → pyIsSpace c = false)) ∧
    pySanitize "  hi  ".data = "hi".data := by
  refine ⟨fun wTab d => rfl, fun s => ⟨?_, ?_⟩, fun s => ⟨?_, ?_, ?_⟩,
    fun s => ⟨pyStrip_decomposition s, pyStrip_head_not_space s,
      pyStrip_getLast_not_space s⟩, by decide⟩
  · simp [replaceChar]
  · intro i h h2
    simp only [replaceChar, List.get_eq_getElem, List.getElem_map]
  · simp [removeChar, List.mem_filter]
  · exact List.filter_sublist s
  · intro c hc hne
    rw [removeChar, List.mem_filter]
    exact ⟨hc, by simpa using hne⟩

/-- Witness for C7 at `s = [U+2028]`, index 0: the replacement stage turns
the line separator at position 0 into a newline. -/
theorem C7_sanitizer_witness :
    (replaceChar [lineSeparator] lineSeparator '\n').get ⟨0, by decide⟩
      = if ([lineSeparator].get ⟨0, by decide⟩) = lineSeparator then '\n'
        else [lineSeparator].get ⟨0, by decide⟩ :=
  ((C7_sanitizer.2.1 [lineSeparator]).2 0 (by decide) (by decide))

theorem mem_pyStrip (s : List Char) (c : Char) (h : c ∈ pyStrip s) : c ∈ s := by
  obtain ⟨s1, s2, hdec⟩ := pyStrip_decomposition s
  rw [hdec, List.mem_append, List.mem_append]
  exact Or.inl (Or.inr h)

theorem replaceChar_no_occurrence (s : List Char) (old new : Char)
    (h : ∀ c ∈ s, c ≠ old) : replaceChar s old new = s := by
  unfold replaceChar
  have : s.map (fun c => if c = old then new else c) = s.map id := by
    apply List.map_congr_left
    intro a ha
    simp [h a ha]
  rw [this, List.map_id]

theorem removeChar_no_occurrence (s : List Char) (old : Char)
    (h : ∀ c ∈ s, c ≠ old) : removeChar s old = s := by
  unfold removeChar
  rw [List.filter_eq_self]
  intro a ha
  simpa using h a ha

theorem dropWhile_head_not (p : α → Bool) (l : List α)
    (h : ∀ c, l.head? = some c → p c = false) : l.dropWhile p = l := by
  match l with
  | [] => rfl
  | x :: xs =>
    rw [List.dropWhile_cons, if_neg]
    simp [h x rfl]

theorem dropTrailing_getLast_not (p : α → Bool) (l : List α)
    (h : ∀ c, l.getLast? = some c → p c = false) : dropTrailing p l = l := by
  unfold dropTrailing
  rw [dropWhile_head_not p l.reverse (by intro c hc; rw [List.head?_reverse] at hc; exact h c hc)]
  exact List.reverse_reverse l

theorem pyStrip_idempotent (s : List Char) : pyStrip (pyStrip s) = pyStrip s := by
  show dropTrailing pyIsSpace ((pyStrip s).dropWhile pyIsSpace) = pyStrip s
  rw [dropWhile_head_not pyIsSpace (pyStrip s) (pyStrip_head_not_space s)]
  exact dropTrailing_getLast_not pyIsSpace (pyStrip s) (pyStrip_getLast_not_space s)

/-- C10: the sanitizer is idempotent — applying it twice equals applying
it once — and consequently every output of the decoder (after successful
decompression) is a fixed point of the sanitizer. -/
theorem C10_sanitizer_idempotent :
    (∀ s : List Char, pySanitize (pySanitize s) = pySanitize s) ∧
    (∀ (wTab : Nat → Bool) (d : Bytes),
      pySanitize (extractFromDecompressed wTab d) = extractFromDecompressed wTab d) := by
  have hmain : ∀ s : List Char, pySanitize (pySanitize s) = pySanitize s := by
    intro s
    have hnol : ∀ c ∈ pySanitize s, c ≠ lineSeparator := by
      intro c hc
      unfold pySanitize at hc
      have hc2 := mem_pyStrip _ c hc
      rw [removeChar, List.mem_filter] at hc2
      rw [replaceChar, List.mem_map] at hc2
      obtain ⟨⟨a, _, ha⟩, _⟩ := hc2
      rw [← ha]
      split
      · decide
      · assumption
    have hnoo : ∀ c ∈ pySanitize s, c ≠ objectReplacement := by
      intro c hc
      unfold pySanitize at hc
      have hc2 := mem_pyStrip _ c hc
      rw [removeChar, List.mem_filter] at hc2
      simpa using hc2.2
    show pyStrip (removeChar (replaceChar (pySanitize s) lineSeparator '\n')
      objectReplacement) = pySanitize s
    rw [replaceChar_no_occurrence _ _ _ hnol, removeChar_no_occurrence _ _ hnoo]
    exact pyStrip_idempotent (removeChar (replaceChar s lineSeparator '\n') objectReplacement)
  refine ⟨hmain, fun wTab d => ?_⟩
  have : extractFromDecompressed wTab d
      = pySanitize (if _try_structured_parse d = []
          then _fallback_extract_text wTab d else _try_structured_parse d) := rfl
  rw [this, hmain]

/-! ### Claims C8 and C9: the query layer -/

theorem extract_empty_or_sanitized {ε : Type} (gz zl : Bytes → Except ε Bytes)
    (wTab : Nat → Bool) (data : Bytes) :
    _extract_text_from_protobuf gz zl wTab data = [] ∨
      ∃ t, _extract_text_from_protobuf gz zl wTab data = pySanitize t := by
  unfold _extract_text_from_protobuf
  cases gz data with
  | ok d => exact Or.inr ⟨_, rfl⟩
  | error _ =>
    cases zl data with
    | ok d => exact Or.inr ⟨_, rfl⟩
    | error _ => exact Or.inl rfl

/-- C8: every `Note` that `get_notes` lists has an empty body, and every
`Note` that `get_note` returns has a body that is either empty or the
sanitizer's full output on some recovered text — never partially
sanitized. -/
theorem C8_body_invariant :
    (∀ {τ : Type} (le_ts : τ → τ → Bool) (tsIso : Option τ → Option (List Char))
        (db : List (CloudObject τ)) (folder_id : Option Nat) (n : Note),
      n ∈ get_notes le_ts tsIso db folder_id → n.body = []) ∧
    (∀ {ε τ : Type} (gzipDecompress zlibDecompress : Bytes → Except ε Bytes)
        (wTab : Nat → Bool) (tsIso : Option τ → Option (List Char))
        (db : List (CloudObject τ)) (ndTable : List NoteData) (note_id : Nat) (n : Note),
      get_note gzipDecompress zlibDecompress wTab tsIso db ndTable note_id = some n →
        n.body = [] ∨ ∃ t, n.body = pySanitize t) := by
  constructor
  · intro τ le_ts tsIso db folder_id n hn
    unfold get_notes at hn
    obtain ⟨pr, _, hpr⟩ := List.mem_map.mp hn
    rw [← hpr]
    rfl
  · intro ε τ gz zl wTab tsIso db ndTable note_id n h
    unfold get_note at h
    dsimp only at h
    split at h
    · exact absurd h (by simp)
    · rw [Option.some.injEq] at h
      subst h
      rename_i r _
      cases hbd : r.2.bind NoteData.zdata with
      | none => left; simp [hbd]
      | some d =>
        by_cases hd : d = []
        · left; simp [hbd, hd]
        · rcases extract_empty_or_sanitized gz zl wTab d with he | ⟨t, ht⟩
          · left; simp [hbd, hd, he]
          · right; exact ⟨t, by simp [hbd, hd, ht]⟩

/-- Witness for C8: in a one-row store, the listed note has an empty body;
and the note fetched by `get_note` (whose blob fails both decompressors)
has a body that is empty or fully sanitized. -/
theorem C8_body_invariant_witness :
    (noteOfRow wTsIso (wRow1, none)).body = [] ∧
    (wN.body = [] ∨ ∃ t, wN.body = pySanitize t) :=
  ⟨C8_body_invariant.1 wLeTs wTsIso [wRow1] none _ (by decide),
   C8_body_invariant.2 wFailDecompress wFailDecompress wTab0 wTsIso
     [wRow1] [wND1] 1 wN (by decide)⟩

theorem mem_insertLe {α : Type} (le : α → α → Bool) (a x : α) (l : List α) :
    x ∈ insertLe le a l ↔ x = a ∨ x ∈ l := by
  induction l with
  | nil => simp [insertLe]
  | cons b bs ih =>
    simp only [insertLe]
    split
    · simp
    · simp only [List.mem_cons, ih]
      tauto

theorem mem_sortLe {α : Type} (le : α → α → Bool) (x : α) (l : List α) :
    x ∈ sortLe le l ↔ x ∈ l := by
  induction l with
  | nil => simp [sortLe]
  | cons a as ih =>
    simp only [sortLe, mem_insertLe, ih, List.mem_cons]

theorem mem_leftJoinFolder_self {τ : Type} (db : List (CloudObject τ)) (n : CloudObject τ) :
    (n, firstFolderMatch db n) ∈ leftJoinFolder db n := by
  unfold leftJoinFolder firstFolderMatch
  cases h : db.filter (fun f => n.zfolder = some f.z_pk) with
  | nil => simp
  | cons f fs =>
    simp only [List.head?_cons]
    exact List.mem_map.mpr ⟨f, List.mem_cons_self f fs, rfl⟩

theorem leftJoinFolder_fst {τ : Type} (db : List (CloudObject τ)) (n : CloudObject τ) :
    ∀ x ∈ leftJoinFolder db n, x.1 = n := by
  intro x hx
  unfold leftJoinFolder at hx
  revert hx
  cases db.filter (fun f => n.zfolder = some f.z_pk) with
  | nil => intro hx; simp at hx; rw [hx]
  | cons f fs =>
    intro hx
    obtain ⟨g, _, hg⟩ := List.mem_map.mp hx
    rw [← hg]

/-- C9: a row whose deletion marker is NULL or 0 is treated as present —
if it is titled and matches the folder restriction, its mapped `Note` is
listed by `get_notes`; a row with any other marker value is excluded — no
listed note carries its primary key (given that primary keys are unique),
and it satisfies no folder's counting predicate, while every folder that
`get_folders` returns draws its `note_count` exactly from that predicate. -/
theorem C9_soft_delete {τ : Type} (le_ts : τ → τ → Bool)
    (tsIso : Option τ → Option (List Char)) (db : List (CloudObject τ))
    (folder_id : Option Nat) (row : CloudObject τ) (hrow : row ∈ db) :
    ((row.zmarkedfordeletion = none ∨ row.zmarkedfordeletion = some 0) →
      row.ztitle1 ≠ none →
      (folder_id = none ∨ row.zfolder = folder_id) →
      noteOfRow tsIso (row, firstFolderMatch db row)
        ∈ get_notes le_ts tsIso db folder_id) ∧
    (∀ m : Int, row.zmarkedfordeletion = some m → m ≠ 0 →
      ((db.map (fun r => r.z_pk)).Nodup →
        ∀ n, n ∈ get_notes le_ts tsIso db folder_id → n.id ≠ row.z_pk) ∧
      (∀ frow : CloudObject τ, row ∉ db.filter (countedNote frow))) ∧
    (∀ fl, fl ∈ get_folders db →
      ∃ frow, frow ∈ db ∧ frow.ztitle2 ≠ none ∧ notDeleted frow = true ∧
        fl = ⟨frow.z_pk, frow.ztitle2.getD [],
              (db.filter (countedNote frow)).length⟩) := by
  refine ⟨?_, ?_, ?_⟩
  · intro hmk htitle hfol
    unfold get_notes
    apply List.mem_map.mpr
    refine ⟨(row, firstFolderMatch db row), ?_, rfl⟩
    rw [mem_sortLe, List.mem_filter]
    constructor
    · exact List.mem_flatMap.mpr ⟨row, hrow, mem_leftJoinFolder_self db row⟩
    · unfold whereNotes notDeleted
      rcases hfol with hf | hf
      · rcases hmk with hm | hm <;> simp [hf, hm, htitle]
      · rcases hmk with hm | hm
        · cases folder_id <;> simp_all
        · cases folder_id <;> simp_all
  · intro m hm hm0
    have hnd : notDeleted row = false := by
      simp [notDeleted, hm, hm0]
    constructor
    · intro hnodup n hn hid
      unfold get_notes at hn
      obtain ⟨pr, hpr, hprn⟩ := List.mem_map.mp hn
      rw [mem_sortLe, List.mem_filter] at hpr
      obtain ⟨hjoin, hwhere⟩ := hpr
      obtain ⟨r0, hr0, hpair⟩ := List.mem_flatMap.mp hjoin
      have hfst : pr.1 = r0 := leftJoinFolder_fst db r0 pr hpair
      have hidpk : n.id = pr.1.z_pk := by rw [← hprn]; rfl
      have hr0row : r0 = row := by
        apply List.inj_on_of_nodup_map hnodup hr0 hrow
        rw [← hfst, ← hidpk, hid]
      have : notDeleted pr.1 = true := by
        unfold whereNotes at hwhere
        simp only [Bool.and_eq_true] at hwhere
        exact hwhere.1.2
      rw [hfst, hr0row, hnd] at this
      cases this
    · intro frow hmem
      rw [List.mem_filter] at hmem
      have := hmem.2
      unfold countedNote at this
      simp only [Bool.and_eq_true] at this
      rw [hnd] at this
      exact absurd this.2 (by simp)
  · intro fl hfl
    unfold get_folders at hfl
    obtain ⟨frow, hfrow, hflr⟩ := List.mem_map.mp hfl
    rw [mem_sortLe, List.mem_filter] at hfrow
    obtain ⟨hmem, hcond⟩ := hfrow
    simp only [Bool.and_eq_true, decide_eq_true_eq] at hcond
    exact ⟨frow, hmem, hcond.1, hcond.2, by rw [← hflr]; rfl⟩

/-- Witness for C9 on a four-row store: the live note of folder 10 is
listed; no listed note carries the deleted row's key 3; and the deleted
row fails folder 10's counting predicate. -/
theorem C9_soft_delete_witness :
    noteOfRow wTsIso (wNote2, firstFolderMatch wdb wNote2)
      ∈ get_notes wLeTs wTsIso wdb none
    ∧ (noteOfRow wTsIso (wNote2, some wFolderRow)).id ≠ wDeleted3.z_pk
    ∧ wDeleted3 ∉ wdb.filter (countedNote wFolderRow) :=
  ⟨(C9_soft_delete wLeTs wTsIso wdb none wNote2 (by decide)).1
      (Or.inr rfl) (by decide) (Or.inl rfl),
   ((C9_soft_delete wLeTs wTsIso wdb none wDeleted3 (by decide)).2.1
      1 rfl (by decide)).1 (by decide) _ (by decide),
   ((C9_soft_delete wLeTs wTsIso wdb none wDeleted3 (by decide)).2.1
      1 rfl (by decide)).2 wFolderRow⟩

end AppleNotes
